import Mathlib

/-!
Shallow embedding of the zygosity-classification and report-aggregation core of
the rlgenes repository (`src/utils/templateProcessor.ts`, current version in the
second half of the file), together with proofs of the specification claims.

Strings are modelled by Lean `String`; JS `Map` objects by association lists
with JS `Map.set`/`Map.get` semantics; the genotype map object by a function
`String → Option GenotypeEntry`; reference rows by a structure whose
`problemAllele` is `Option String` (the investigation notes document that this
field can be absent at runtime, and the code guards for it with `reference?.problemAllele`);
percentages by exact rationals.
-/

/-- Zygosity classification states, the closed five-valued variant behind the
TS union type `Zygosity` in `src/types` (current version). -/
inductive Zygosity where
  | Homozygous
  | Heterozygous
  | Wild
  | DataMissing
  | ReferenceMissing
  deriving DecidableEq, Repr

/-- One row of the curated reference table (`AlleleData` in `src/types`).
`problemAllele` is the effect allele; it is optional because the runtime data
can lack it (the code checks `reference?.problemAllele` for truthiness). -/
structure AlleleData where
  rsId : String
  wildAllele : String
  problemAllele : Option String
  confirmationUrl : String
  gene : Option String
  deriving DecidableEq, Repr

/-- One genotype record: the two observed allele calls (`GeneticData` values). -/
structure GenotypeEntry where
  allele1 : String
  allele2 : String
  deriving DecidableEq, Repr

/-- The genotype map `GeneticData`: a JS object keyed by RS ID, modelled as a
lookup function. -/
abbrev GeneticData := String → Option GenotypeEntry

/-- Per-identifier classification record (`SNPResult` in `src/types`). -/
structure SNPResult where
  rsId : String
  zygosity : Zygosity
  alleles : String
  effectAllele : Option String
  gene : Option String
  deriving DecidableEq, Repr

/-- Per-section tally record (`SectionSummary` in `src/types`), with exact
rational percentages. -/
structure SectionSummary where
  sectionName : String
  heterozygousCount : Nat
  homozygousCount : Nat
  wildCount : Nat
  missingCount : Nat
  referenceMissingCount : Nat
  totalCount : Nat
  heterozygousPercent : ℚ
  homozygousPercent : ℚ
  wildPercent : ℚ
  missingPercent : ℚ
  referenceMissingPercent : ℚ
  deriving DecidableEq, Repr

/-- JS `String.prototype.toUpperCase` on the ASCII data at hand: uppercase
every character. Equivalent to `String.toUpper`, but defined by a structural
list map so that the kernel can evaluate it on concrete inputs. -/
def toUpperCase (s : String) : String :=
  String.mk (s.data.map Char.toUpper)

/-- JS `String.prototype.trim`: drop whitespace from both ends. Defined by
structural list operations so that the kernel can evaluate it. -/
def trimEnds (s : String) : String :=
  String.mk (((s.data.dropWhile Char.isWhitespace).reverse.dropWhile Char.isWhitespace).reverse)

/-- Word characters of the JS regex class `\w`: ASCII letters, digits, and
underscore. Used to embed the word-boundary assertion `\b`. -/
def isWordChar (c : Char) : Bool :=
  c.isAlpha || c.isDigit || c == '_'

/-- Word-boundary test before a match position: holds at the start of the text
or after a non-word character (`\b` of the pattern `\bRS\d+\b`). -/
def boundaryBefore : Option Char → Bool
  | none => true
  | some c => !(isWordChar c)

/-- Word-boundary test after a match: holds at the end of the text or before a
non-word character (the trailing `\b` of `\bRS\d+\b`). -/
def boundaryAfter : List Char → Bool
  | [] => true
  | c :: _ => !(isWordChar c)

/-- Splits a maximal run of decimal digits off the front of a character list,
embedding the greedy `\d+` of the pattern. -/
def takeDigits : List Char → List Char × List Char
  | [] => ([], [])
  | c :: cs =>
    if c.isDigit then
      let p := takeDigits cs
      (c :: p.1, p.2)
    else
      ([], c :: cs)

/-- Last element of a nonempty character run, with the preceding character as
default. -/
def lastChar (d : Char) : List Char → Char
  | [] => d
  | c :: cs => lastChar c cs

/-- Global scanner for the regex `/\bRS\d+\b/gi` (line 364 of
`templateProcessor.ts`): walks the text left to right, and at each position
with a word boundary before it matches a case-insensitive `RS` followed by a
maximal nonempty digit run ending at a word boundary; matches are
non-overlapping and scanning resumes after each match, exactly as JS global
matching does. `prev` is the character preceding the current position. The
`fuel` argument only bounds the recursion; every step consumes at least one
character, so `length + 1` fuel never runs out. -/
def scanRSAux : Nat → Option Char → List Char → List String
  | 0, _, _ => []
  | _ + 1, _, [] => []
  | _ + 1, _, [_] => []
  | fuel + 1, prev, c1 :: c2 :: rest =>
    if boundaryBefore prev && (c1 == 'R' || c1 == 'r') && (c2 == 'S' || c2 == 's') then
      let p := takeDigits rest
      if p.1.length > 0 && boundaryAfter p.2 then
        String.mk (c1 :: c2 :: p.1) :: scanRSAux fuel (some (lastChar c2 p.1)) p.2
      else
        scanRSAux fuel (some c1) (c2 :: rest)
    else
      scanRSAux fuel (some c1) (c2 :: rest)

/-- All matches of `/\bRS\d+\b/gi` in a string, in text order and in original
case (the value of `content.match(rsIdPattern)`, with `null` as `[]`). -/
def rsMatches (s : String) : List String :=
  scanRSAux (s.length + 1) none s.data

/-- First-occurrence deduplication with an accumulator of already-seen values:
the semantics of `new Set(...)` iteration in JS (insertion order of distinct
values). -/
def dedupeFirstAux (seen : List String) : List String → List String
  | [] => []
  | x :: xs =>
    if seen.contains x then
      dedupeFirstAux seen xs
    else
      x :: dedupeFirstAux (x :: seen) xs

/-- First-occurrence deduplication of a list of strings. -/
def dedupeFirst (l : List String) : List String :=
  dedupeFirstAux [] l

/-- Embedding of `extractRSIds` (lines 363-371): match all RS identifiers,
uppercase them, and deduplicate keeping first-occurrence order. -/
def extractRSIds (content : String) : List String :=
  dedupeFirst ((rsMatches content).map toUpperCase)

/-- Reference-table lookup shared by `determineZygosity` (line 399) and
`getSNPResults` (line 444): first entry whose RS ID matches case-insensitively. -/
def findReference (rsId : String) (alleleReference : List AlleleData) : Option AlleleData :=
  alleleReference.find? (fun r => toUpperCase r.rsId == toUpperCase rsId)

/-- Embedding of `determineZygosity` (lines 383-428, the corrected version):
missing-data check first, then case-insensitive comparison of both alleles
against a present, non-blank effect allele; `ReferenceMissing` otherwise. -/
def determineZygosity (allele1 allele2 rsId : String)
    (alleleReference : List AlleleData) : Zygosity :=
  if allele1 = "-" ∨ allele2 = "-" ∨ allele1 = "" ∨ allele2 = "" then
    Zygosity.DataMissing
  else
    let normalizedAllele1 := toUpperCase allele1
    let normalizedAllele2 := toUpperCase allele2
    match findReference rsId alleleReference with
    | some reference =>
      match reference.problemAllele with
      | some pa =>
        if pa ≠ "" ∧ trimEnds pa ≠ "" then
          let effectAllele := toUpperCase pa
          if normalizedAllele1 = effectAllele ∧ normalizedAllele2 = effectAllele then
            Zygosity.Homozygous
          else if normalizedAllele1 = effectAllele ∨ normalizedAllele2 = effectAllele then
            Zygosity.Heterozygous
          else
            Zygosity.Wild
        else
          Zygosity.ReferenceMissing
      | none => Zygosity.ReferenceMissing
    | none => Zygosity.ReferenceMissing

/-- JS `Map.get`: first (and only, since `set` replaces) binding of a key. -/
def mapGet {α : Type} (m : List (String × α)) (k : String) : Option α :=
  match m with
  | [] => none
  | (k', v) :: rest => if k' = k then some v else mapGet rest k

/-- JS `Map.set`: replace the binding in place when the key is present,
otherwise append. -/
def mapSet {α : Type} (m : List (String × α)) (k : String) (v : α) : List (String × α) :=
  match m with
  | [] => [(k, v)]
  | (k', v') :: rest => if k' = k then (k, v) :: rest else (k', v') :: mapSet rest k v

/-- Body of the `getSNPResults` loop (lines 440-471) for one RS ID: with no
genotype entry emit `DataMissing` with the two-dash sentinel, otherwise invoke
the classifier; either way carry the reference entry's effect allele and gene. -/
def processRSId (rsId : String) (geneticData : GeneticData)
    (alleleReference : List AlleleData) : SNPResult :=
  let reference := findReference rsId alleleReference
  match geneticData (toUpperCase rsId) with
  | none =>
    { rsId := rsId
      zygosity := Zygosity.DataMissing
      alleles := "--"
      effectAllele := reference.bind (fun r => r.problemAllele)
      gene := reference.bind (fun r => r.gene) }
  | some data =>
    { rsId := rsId
      zygosity := determineZygosity data.allele1 data.allele2 rsId alleleReference
      alleles := data.allele1 ++ data.allele2
      effectAllele := reference.bind (fun r => r.problemAllele)
      gene := reference.bind (fun r => r.gene) }

/-- Embedding of `getSNPResults` (lines 433-474): build the result map keyed by
uppercased RS ID, in list order. -/
def getSNPResults (rsIds : List String) (geneticData : GeneticData)
    (alleleReference : List AlleleData) : List (String × SNPResult) :=
  rsIds.foldl (fun results rsId =>
    mapSet results (toUpperCase rsId) (processRSId rsId geneticData alleleReference)) []

/-- The subsection-suppression decision of `transformTemplate`
(lines 683-703): with `showAllSubsections` unset, a recognized list item whose
text contains at least one RS ID is hidden (`display: none`) exactly when every
contained RS ID has a result whose zygosity is `Wild` or `Data Missing`; an RS
ID with no result entry keeps the subsection visible. -/
def subsectionHidden (showAllSubsections : Bool) (text : String)
    (snpResults : List (String × SNPResult)) : Bool :=
  if showAllSubsections then
    false
  else
    let rsIds := extractRSIds text
    if rsIds.length > 0 then
      rsIds.all (fun rsId =>
        match mapGet snpResults (toUpperCase rsId) with
        | some result => result.zygosity == Zygosity.Wild || result.zygosity == Zygosity.DataMissing
        | none => false)
    else
      false

/-- Mutable counter block of the `calculateSectionSummaries` loop. -/
structure ZygosityCounts where
  heterozygousCount : Nat
  homozygousCount : Nat
  wildCount : Nat
  missingCount : Nat
  referenceMissingCount : Nat
  deriving DecidableEq, Repr

/-- The per-RS-ID counting step of `calculateSectionSummaries` (lines 841-862):
an RS ID with a result increments the counter of its zygosity; one without a
result increments nothing. -/
def countStep (snpResults : List (String × SNPResult)) (c : ZygosityCounts)
    (rsId : String) : ZygosityCounts :=
  match mapGet snpResults (toUpperCase rsId) with
  | some result =>
    match result.zygosity with
    | Zygosity.Heterozygous => { c with heterozygousCount := c.heterozygousCount + 1 }
    | Zygosity.Homozygous => { c with homozygousCount := c.homozygousCount + 1 }
    | Zygosity.Wild => { c with wildCount := c.wildCount + 1 }
    | Zygosity.DataMissing => { c with missingCount := c.missingCount + 1 }
    | Zygosity.ReferenceMissing => { c with referenceMissingCount := c.referenceMissingCount + 1 }
  | none => c

/-- Zygosity tallies over a section's RS IDs (the `forEach` of lines 841-862). -/
def countZygosities (rsIds : List String)
    (snpResults : List (String × SNPResult)) : ZygosityCounts :=
  rsIds.foldl (countStep snpResults) ⟨0, 0, 0, 0, 0⟩

/-- Per-section summary computation of `calculateSectionSummaries`
(lines 827-880): extract the RS IDs of the section's text span, skip the
section entirely when there are none, otherwise tally zygosities and attach
exact percentages over the extracted-identifier count. -/
def sectionSummaryOf (sectionName : String) (sectionText : String)
    (snpResults : List (String × SNPResult)) : Option SectionSummary :=
  let rsIds := extractRSIds sectionText
  if rsIds.length = 0 then
    none
  else
    let c := countZygosities rsIds snpResults
    let totalCount := rsIds.length
    some
      { sectionName := sectionName
        heterozygousCount := c.heterozygousCount
        homozygousCount := c.homozygousCount
        wildCount := c.wildCount
        missingCount := c.missingCount
        referenceMissingCount := c.referenceMissingCount
        totalCount := totalCount
        heterozygousPercent := (c.heterozygousCount : ℚ) / (totalCount : ℚ) * 100
        homozygousPercent := (c.homozygousCount : ℚ) / (totalCount : ℚ) * 100
        wildPercent := (c.wildCount : ℚ) / (totalCount : ℚ) * 100
        missingPercent := (c.missingCount : ℚ) / (totalCount : ℚ) * 100
        referenceMissingPercent := (c.referenceMissingCount : ℚ) / (totalCount : ℚ) * 100 }

/-- The element of a key list that determines the final `Map` binding of key
`k` after a left fold of `set` operations: the last element whose uppercased
form is `k`. -/
def lastWrite (k : String) : List String → Option String
  | [] => none
  | id :: rest =>
    match lastWrite k rest with
    | some x => some x
    | none => if toUpperCase id = k then some id else none

/-- Sum of the five per-state counters. -/
def sumCounts (c : ZygosityCounts) : Nat :=
  c.heterozygousCount + c.homozygousCount + c.wildCount + c.missingCount +
    c.referenceMissingCount

/-- Row order of the grand-summary table produced by `generateGrandSummaryHTML`
(lines 957-959 and 983): a stable sort of the section summaries by homozygous
percentage, highest first (`[...summaries].sort((a, b) => b.homozygousPercent - a.homozygousPercent)`,
with JS `Array.prototype.sort` guaranteed stable). -/
def grandSummaryRowOrder (summaries : List SectionSummary) : List SectionSummary :=
  summaries.insertionSort (fun a b => b.homozygousPercent ≤ a.homozygousPercent)

/-! ## Lemmas about the JS map model -/

theorem mapGet_mapSet_self {α : Type} (m : List (String × α)) (k : String) (v : α) :
    mapGet (mapSet m k v) k = some v := by
  induction m with
  | nil => simp [mapSet, mapGet]
  | cons p rest ih =>
    obtain ⟨k', v'⟩ := p
    by_cases h : k' = k
    · subst h
      simp [mapSet, mapGet]
    · simp [mapSet, mapGet, h, ih]

theorem mapGet_mapSet_ne {α : Type} (m : List (String × α)) (k k' : String) (v : α)
    (h : k' ≠ k) : mapGet (mapSet m k' v) k = mapGet m k := by
  induction m with
  | nil => simp [mapSet, mapGet, h]
  | cons p rest ih =>
    obtain ⟨k'', v''⟩ := p
    by_cases h2 : k'' = k'
    · subst h2
      simp [mapSet, mapGet, h]
    · simp [mapSet, mapGet, h2, ih]

/-! ## Claims about the classifier -/

/-- C2: whenever either allele is the missing-data sentinel or empty, the
classifier returns `Data Missing`, for every identifier and every reference
table (in particular the lookup result is irrelevant and an identifier without
any reference entry behaves the same). -/
theorem determineZygosity_data_missing (a1 a2 rsId : String)
    (alleleReference : List AlleleData)
    (h : a1 = "-" ∨ a2 = "-" ∨ a1 = "" ∨ a2 = "") :
    determineZygosity a1 a2 rsId alleleReference = Zygosity.DataMissing := by
  unfold determineZygosity
  rw [if_pos h]

/-- Witness for `determineZygosity_data_missing` at a concrete input whose
identifier has no reference entry at all. -/
theorem determineZygosity_data_missing_witness :
    determineZygosity "-" "G" "RS42" [] = Zygosity.DataMissing :=
  determineZygosity_data_missing "-" "G" "RS42" [] (by decide)

/-- C1: for a non-missing allele pair, when the identifier has no reference
entry, or the found entry's effect allele is absent or blank after trimming,
the classifier returns `Reference Missing` — also when the two observed
alleles are equal to each other. -/
theorem determineZygosity_reference_missing (a1 a2 rsId : String)
    (alleleReference : List AlleleData)
    (hm : ¬(a1 = "-" ∨ a2 = "-" ∨ a1 = "" ∨ a2 = ""))
    (href : findReference rsId alleleReference = none ∨
      ∃ entry, findReference rsId alleleReference = some entry ∧
        (entry.problemAllele = none ∨
          ∃ p, entry.problemAllele = some p ∧ trimEnds p = "")) :
    determineZygosity a1 a2 rsId alleleReference = Zygosity.ReferenceMissing := by
  unfold determineZygosity
  rw [if_neg hm]
  rcases href with h | ⟨entry, he, hp⟩
  · simp [h]
  · rcases hp with hnone | ⟨p, hpa, htrim⟩
    · simp [he, hnone]
    · have hne : ¬(p ≠ "" ∧ trimEnds p ≠ "") := by
        intro hc
        exact hc.2 htrim
      simp [he, hpa, hne]

/-- Witness for `determineZygosity_reference_missing`: the two observed alleles
are equal, yet the result is `Reference Missing`, not `Homozygous`. -/
theorem determineZygosity_reference_missing_witness :
    determineZygosity "A" "A" "RS9" [] = Zygosity.ReferenceMissing :=
  determineZygosity_reference_missing "A" "A" "RS9" [] (by decide) (Or.inl (by decide))

/-- C3: with a found reference entry whose effect allele is present and
non-blank after trimming, the classifier compares the alleles with the effect
allele case-insensitively and returns `Homozygous` when both match,
`Heterozygous` when exactly one matches, and `Wild` when neither matches. -/
theorem determineZygosity_with_effect_allele (a1 a2 rsId : String)
    (alleleReference : List AlleleData) (entry : AlleleData) (p : String)
    (hm : ¬(a1 = "-" ∨ a2 = "-" ∨ a1 = "" ∨ a2 = ""))
    (hfind : findReference rsId alleleReference = some entry)
    (hpa : entry.problemAllele = some p)
    (hval : p ≠ "" ∧ trimEnds p ≠ "") :
    (toUpperCase a1 = toUpperCase p ∧ toUpperCase a2 = toUpperCase p →
      determineZygosity a1 a2 rsId alleleReference = Zygosity.Homozygous) ∧
    ((toUpperCase a1 = toUpperCase p ∨ toUpperCase a2 = toUpperCase p) ∧
        ¬(toUpperCase a1 = toUpperCase p ∧ toUpperCase a2 = toUpperCase p) →
      determineZygosity a1 a2 rsId alleleReference = Zygosity.Heterozygous) ∧
    (toUpperCase a1 ≠ toUpperCase p ∧ toUpperCase a2 ≠ toUpperCase p →
      determineZygosity a1 a2 rsId alleleReference = Zygosity.Wild) := by
  unfold determineZygosity
  rw [if_neg hm]
  refine ⟨?_, ?_, ?_⟩
  · intro hb
    simp [hfind, hpa, hval, hb]
  · intro ⟨hor, hnb⟩
    simp only [hfind, hpa, hval]
    simp [hval, hnb, hor]
  · intro ⟨h1, h2⟩
    simp [hfind, hpa, hval, h1, h2]

/-- Witness for `determineZygosity_with_effect_allele`: lower-case observed
alleles against an upper-case effect allele, one matching, yields
`Heterozygous`. -/
theorem determineZygosity_with_effect_allele_witness :
    determineZygosity "g" "a" "rs1" [⟨"RS1", "A", some "G", "url", some "MTHFR"⟩] =
      Zygosity.Heterozygous :=
  (determineZygosity_with_effect_allele "g" "a" "rs1"
      [⟨"RS1", "A", some "G", "url", some "MTHFR"⟩]
      ⟨"RS1", "A", some "G", "url", some "MTHFR"⟩ "G"
      (by decide) (by decide) rfl (by decide)).2.1 (by decide)

/-- C4: the classifier is total — every input combination reaches one of the
five defined states. -/
theorem determineZygosity_total (a1 a2 rsId : String)
    (alleleReference : List AlleleData) :
    determineZygosity a1 a2 rsId alleleReference = Zygosity.Homozygous ∨
    determineZygosity a1 a2 rsId alleleReference = Zygosity.Heterozygous ∨
    determineZygosity a1 a2 rsId alleleReference = Zygosity.Wild ∨
    determineZygosity a1 a2 rsId alleleReference = Zygosity.DataMissing ∨
    determineZygosity a1 a2 rsId alleleReference = Zygosity.ReferenceMissing := by
  cases h : determineZygosity a1 a2 rsId alleleReference <;> simp

/-- C9: the classifier is symmetric in its two allele arguments, in all five
states. -/
theorem determineZygosity_symmetric (a1 a2 rsId : String)
    (alleleReference : List AlleleData) :
    determineZygosity a1 a2 rsId alleleReference =
      determineZygosity a2 a1 rsId alleleReference := by
  unfold determineZygosity
  by_cases hm : a1 = "-" ∨ a2 = "-" ∨ a1 = "" ∨ a2 = ""
  · rw [if_pos hm, if_pos (by tauto)]
  · rw [if_neg hm, if_neg (by tauto)]
    cases h : findReference rsId alleleReference with
    | none => simp [h]
    | some entry =>
      cases hpa : entry.problemAllele with
      | none => simp [h, hpa]
      | some pa =>
        by_cases hval : pa ≠ "" ∧ trimEnds pa ≠ ""
        · simp only [h, hpa, hval, if_true]
          split_ifs <;> tauto
        · simp [h, hpa, hval]

/-! ## Lemmas about the aggregator -/

theorem lastWrite_toUpperCase (k : String) (l : List String) (x : String)
    (h : lastWrite k l = some x) : toUpperCase x = k := by
  induction l with
  | nil => simp [lastWrite] at h
  | cons id rest ih =>
    simp only [lastWrite] at h
    cases hr : lastWrite k rest with
    | some y =>
      rw [hr] at h
      exact ih (by rw [hr, ← Option.some_inj.mp h])
    | none =>
      rw [hr] at h
      by_cases hk : toUpperCase id = k
      · rw [if_pos hk] at h
        rw [← Option.some_inj.mp h]
        exact hk
      · rw [if_neg hk] at h
        exact absurd h (by simp)

theorem lastWrite_isSome_of_mem (k : String) (l : List String) (id : String)
    (hmem : id ∈ l) (hk : toUpperCase id = k) : (lastWrite k l).isSome := by
  induction l with
  | nil => simp at hmem
  | cons a rest ih =>
    simp only [lastWrite]
    cases hr : lastWrite k rest with
    | some y => simp
    | none =>
      rcases List.mem_cons.mp hmem with rfl | hmem'
      · simp [hk]
      · have := ih hmem'
        rw [hr] at this
        simp at this

theorem getSNPResults_foldl_get (geneticData : GeneticData)
    (alleleReference : List AlleleData) (rsIds : List String)
    (m : List (String × SNPResult)) (k : String) :
    mapGet (rsIds.foldl (fun results rsId =>
        mapSet results (toUpperCase rsId)
          (processRSId rsId geneticData alleleReference)) m) k =
      match lastWrite k rsIds with
      | some id => some (processRSId id geneticData alleleReference)
      | none => mapGet m k := by
  induction rsIds generalizing m with
  | nil => simp [lastWrite]
  | cons id rest ih =>
    simp only [List.foldl_cons, lastWrite]
    rw [ih]
    cases hr : lastWrite k rest with
    | some x => simp
    | none =>
      by_cases hk : toUpperCase id = k
      · simp only [hk, if_pos rfl]
        rw [← hk] at *
        simp [mapGet_mapSet_self]
      · simp [hk, mapGet_mapSet_ne _ _ _ _ hk]

theorem findReference_congr (id1 id2 : String) (alleleReference : List AlleleData)
    (h : toUpperCase id1 = toUpperCase id2) :
    findReference id1 alleleReference = findReference id2 alleleReference := by
  unfold findReference
  simp only [h]

/-- C6: every identifier in the requested list that has no genotype entry is
emitted by `getSNPResults` as `Data Missing` with the two-dash sentinel for the
observed alleles, while the effect allele and gene are carried over from the
reference entry when one is found (and absent otherwise). -/
theorem getSNPResults_no_genotype (rsIds : List String) (geneticData : GeneticData)
    (alleleReference : List AlleleData) (id : String)
    (hmem : id ∈ rsIds) (hnone : geneticData (toUpperCase id) = none) :
    ∃ r, mapGet (getSNPResults rsIds geneticData alleleReference) (toUpperCase id) = some r ∧
      r.zygosity = Zygosity.DataMissing ∧
      r.alleles = "--" ∧
      r.effectAllele = (findReference id alleleReference).bind (fun e => e.problemAllele) ∧
      r.gene = (findReference id alleleReference).bind (fun e => e.gene) := by
  have hsome := lastWrite_isSome_of_mem (toUpperCase id) rsIds id hmem rfl
  cases hw : lastWrite (toUpperCase id) rsIds with
  | none => rw [hw] at hsome; simp at hsome
  | some x =>
    have hx : toUpperCase x = toUpperCase id := lastWrite_toUpperCase _ _ _ hw
    refine ⟨processRSId x geneticData alleleReference, ?_, ?_⟩
    · rw [getSNPResults, getSNPResults_foldl_get, hw]
    · have hfr : findReference x alleleReference = findReference id alleleReference :=
        findReference_congr x id alleleReference hx
      unfold processRSId
      rw [hx, hnone, hfr]
      exact ⟨rfl, rfl, rfl, rfl⟩

/-- Witness for `getSNPResults_no_genotype`: the empty genotype map with a
reference entry carrying effect allele `T` and gene `G1` yields a
`Data Missing` result with alleles `--`, effect allele `T`, and gene `G1`. -/
theorem getSNPResults_no_genotype_witness :
    ∃ r, mapGet (getSNPResults ["RS9"] (fun _ => none)
        [⟨"RS9", "C", some "T", "url", some "G1"⟩]) (toUpperCase "RS9") = some r ∧
      r.zygosity = Zygosity.DataMissing ∧
      r.alleles = "--" ∧
      r.effectAllele = (findReference "RS9" [⟨"RS9", "C", some "T", "url", some "G1"⟩]).bind
        (fun e => e.problemAllele) ∧
      r.gene = (findReference "RS9" [⟨"RS9", "C", some "T", "url", some "G1"⟩]).bind
        (fun e => e.gene) :=
  getSNPResults_no_genotype ["RS9"] (fun _ => none)
    [⟨"RS9", "C", some "T", "url", some "G1"⟩] "RS9" (by simp) rfl

/-! ## Subsection suppression -/

/-- C7: with `showAllSubsections` unset, a recognized subsection containing at
least one identifier is hidden exactly when every contained identifier resolves
in the result map to `Wild` or `Data Missing`; any identifier resolving to
`Homozygous`, `Heterozygous`, or `Reference Missing` keeps it shown. -/
theorem subsectionHidden_iff (text : String) (snpResults : List (String × SNPResult))
    (h : extractRSIds text ≠ []) :
    (subsectionHidden false text snpResults = true ↔
      ∀ id ∈ extractRSIds text, ∃ r, mapGet snpResults (toUpperCase id) = some r ∧
        (r.zygosity = Zygosity.Wild ∨ r.zygosity = Zygosity.DataMissing)) ∧
    ((∃ id ∈ extractRSIds text, ∃ r, mapGet snpResults (toUpperCase id) = some r ∧
        (r.zygosity = Zygosity.Homozygous ∨ r.zygosity = Zygosity.Heterozygous ∨
          r.zygosity = Zygosity.ReferenceMissing)) →
      subsectionHidden false text snpResults = false) := by
  have hlen : (extractRSIds text).length > 0 := List.length_pos.mpr h
  have hunf : subsectionHidden false text snpResults =
      (extractRSIds text).all (fun rsId =>
        match mapGet snpResults (toUpperCase rsId) with
        | some result =>
          result.zygosity == Zygosity.Wild || result.zygosity == Zygosity.DataMissing
        | none => false) := by
    unfold subsectionHidden
    rw [if_neg Bool.false_ne_true]
    exact if_pos hlen
  constructor
  · rw [hunf, List.all_eq_true]
    constructor
    · intro hall id' hid'
      have hthis := hall id' hid'
      cases hg : mapGet snpResults (toUpperCase id') with
      | none =>
        rw [hg] at hthis
        simp at hthis
      | some r =>
        rw [hg] at hthis
        simp only [Bool.or_eq_true, beq_iff_eq] at hthis
        exact ⟨r, rfl, hthis⟩
    · intro hall id' hid'
      obtain ⟨r, hr, hz⟩ := hall id' hid'
      rw [hr]
      simp only [Bool.or_eq_true, beq_iff_eq]
      exact hz
  · intro ⟨id', hid', r, hr, hz⟩
    rw [hunf]
    apply Bool.eq_false_iff.mpr
    intro htrue
    rw [List.all_eq_true] at htrue
    have hthis := htrue id' hid'
    rw [hr] at hthis
    simp only [Bool.or_eq_true, beq_iff_eq] at hthis
    rcases hz with h1 | h2 | h3 <;> rcases hthis with ha | hb <;> simp_all

/-- Witness for `subsectionHidden_iff`: a subsection whose single identifier is
`Wild` is hidden. -/
theorem subsectionHidden_iff_witness :
    subsectionHidden false "rs77 does nothing"
      [("RS77", ⟨"RS77", Zygosity.Wild, "AA", none, none⟩)] = true :=
  (subsectionHidden_iff "rs77 does nothing"
      [("RS77", ⟨"RS77", Zygosity.Wild, "AA", none, none⟩)] (by decide)).1.mpr
    (by
      intro id' hid'
      have : id' = "RS77" := by
        have hx : extractRSIds "rs77 does nothing" = ["RS77"] := by decide
        rw [hx] at hid'
        simpa using hid'
      subst this
      exact ⟨⟨"RS77", Zygosity.Wild, "AA", none, none⟩, by decide, Or.inl rfl⟩)

/-! ## Section-summary counting -/

theorem countStep_sum (snpResults : List (String × SNPResult)) (c : ZygosityCounts)
    (id : String) :
    sumCounts (countStep snpResults c id) =
      sumCounts c + (if (mapGet snpResults (toUpperCase id)).isSome then 1 else 0) := by
  unfold countStep
  cases hg : mapGet snpResults (toUpperCase id) with
  | none => simp [sumCounts]
  | some r =>
    obtain ⟨rid, rz, ral, ree, rg⟩ := r
    cases rz <;> simp [sumCounts] <;> omega

theorem foldl_countStep_sum (snpResults : List (String × SNPResult))
    (rsIds : List String) (c : ZygosityCounts) :
    sumCounts (rsIds.foldl (countStep snpResults) c) =
      sumCounts c + rsIds.countP (fun id => (mapGet snpResults (toUpperCase id)).isSome) := by
  induction rsIds generalizing c with
  | nil => simp
  | cons id rest ih =>
    simp only [List.foldl_cons, List.countP_cons]
    rw [ih, countStep_sum]
    by_cases hs : (mapGet snpResults (toUpperCase id)).isSome
    · simp [hs]
      omega
    · simp [hs]

theorem countZygosities_sum (rsIds : List String)
    (snpResults : List (String × SNPResult)) :
    sumCounts (countZygosities rsIds snpResults) =
      rsIds.countP (fun id => (mapGet snpResults (toUpperCase id)).isSome) := by
  unfold countZygosities
  rw [foldl_countStep_sum]
  simp [sumCounts]

/-- C10: for every summary emitted by the per-section computation of
`calculateSectionSummaries`, the five per-state counts sum to at most
`totalCount`, with equality exactly when every identifier extracted from the
section's text has an entry in the result map; when some identifier lacks an
entry the sum is strictly smaller and the five percentages do not sum to 100. -/
theorem sectionSummary_count_invariant (sectionName sectionText : String)
    (snpResults : List (String × SNPResult)) (s : SectionSummary)
    (h : sectionSummaryOf sectionName sectionText snpResults = some s) :
    (s.heterozygousCount + s.homozygousCount + s.wildCount + s.missingCount +
        s.referenceMissingCount ≤ s.totalCount) ∧
    (s.heterozygousCount + s.homozygousCount + s.wildCount + s.missingCount +
        s.referenceMissingCount = s.totalCount ↔
      ∀ id ∈ extractRSIds sectionText, (mapGet snpResults (toUpperCase id)).isSome) ∧
    ((∃ id ∈ extractRSIds sectionText, mapGet snpResults (toUpperCase id) = none) →
      s.heterozygousCount + s.homozygousCount + s.wildCount + s.missingCount +
          s.referenceMissingCount < s.totalCount ∧
      s.heterozygousPercent + s.homozygousPercent + s.wildPercent + s.missingPercent +
          s.referenceMissingPercent ≠ 100) := by
  unfold sectionSummaryOf at h
  by_cases hlen : (extractRSIds sectionText).length = 0
  · rw [if_pos hlen] at h
    exact absurd h (by simp)
  · rw [if_neg hlen] at h
    have hs := (Option.some_inj.mp h).symm
    subst hs
    have hsum :
        (countZygosities (extractRSIds sectionText) snpResults).heterozygousCount +
          (countZygosities (extractRSIds sectionText) snpResults).homozygousCount +
          (countZygosities (extractRSIds sectionText) snpResults).wildCount +
          (countZygosities (extractRSIds sectionText) snpResults).missingCount +
          (countZygosities (extractRSIds sectionText) snpResults).referenceMissingCount =
        (extractRSIds sectionText).countP
          (fun id => (mapGet snpResults (toUpperCase id)).isSome) := by
      rw [← countZygosities_sum]
      rfl
    simp only
    rw [hsum]
    refine ⟨List.countP_le_length _, List.countP_eq_length, ?_⟩
    rintro ⟨id, hid, hnone⟩
    have hnotall : ¬ ∀ a ∈ extractRSIds sectionText,
        ((mapGet snpResults (toUpperCase a)).isSome : Prop) := by
      intro hall
      have := hall id hid
      rw [hnone] at this
      simp at this
    have hlt : (extractRSIds sectionText).countP
        (fun id => (mapGet snpResults (toUpperCase id)).isSome) <
        (extractRSIds sectionText).length :=
      lt_of_le_of_ne (List.countP_le_length _)
        (fun heq => hnotall (List.countP_eq_length.mp heq))
    refine ⟨hlt, ?_⟩
    set c := countZygosities (extractRSIds sectionText) snpResults with hc
    set T := (extractRSIds sectionText).length with hT
    have hT0 : (0 : ℚ) < (T : ℚ) := by
      have : 0 < T := Nat.pos_of_ne_zero hlen
      exact_mod_cast this
    have hSlt : ((sumCounts c : ℚ)) < (T : ℚ) := by
      have : sumCounts c < T := by
        rw [hc, countZygosities_sum]
        exact hlt
      exact_mod_cast this
    have hform :
        (c.heterozygousCount : ℚ) / (T : ℚ) * 100 + (c.homozygousCount : ℚ) / (T : ℚ) * 100 +
          (c.wildCount : ℚ) / (T : ℚ) * 100 + (c.missingCount : ℚ) / (T : ℚ) * 100 +
          (c.referenceMissingCount : ℚ) / (T : ℚ) * 100 =
        (sumCounts c : ℚ) / (T : ℚ) * 100 := by
      rw [sumCounts]
      push_cast
      ring
    rw [hform]
    have hdiv : (sumCounts c : ℚ) / (T : ℚ) < 1 := (div_lt_one hT0).mpr hSlt
    have : (sumCounts c : ℚ) / (T : ℚ) * 100 < 1 * 100 :=
      mul_lt_mul_of_pos_right hdiv (by norm_num)
    rw [one_mul] at this
    exact ne_of_lt this

/-- Witness for `sectionSummary_count_invariant`: a section with two extracted
identifiers, only one of which has a result entry, has count sum 1 < 2 and
percentage sum 50 ≠ 100. -/
theorem sectionSummary_count_invariant_witness :
    0 + 0 + 1 + 0 + 0 < 2 ∧ (0 : ℚ) + 0 + 50 + 0 + 0 ≠ 100 := by
  have hyp : sectionSummaryOf "Sec" "RS1 RS2"
      [("RS1", ⟨"RS1", Zygosity.Wild, "AA", none, none⟩)] =
      some ⟨"Sec", 0, 0, 1, 0, 0, 2, 0, 0, 50, 0, 0⟩ := by
    have hids : extractRSIds "RS1 RS2" = ["RS1", "RS2"] := by decide
    have hc : countZygosities ["RS1", "RS2"]
        [("RS1", ⟨"RS1", Zygosity.Wild, "AA", none, none⟩)] = ⟨0, 0, 1, 0, 0⟩ := by decide
    unfold sectionSummaryOf
    simp [hids, hc]
    norm_num
  have h := sectionSummary_count_invariant "Sec" "RS1 RS2"
    [("RS1", ⟨"RS1", Zygosity.Wild, "AA", none, none⟩)]
    ⟨"Sec", 0, 0, 1, 0, 0, 2, 0, 0, 50, 0, 0⟩ hyp
  exact h.2.2 ⟨"RS2", by decide, by decide⟩

/-! ## Identifier extraction -/

theorem not_mem_seen_of_mem_dedupeFirstAux (seen l : List String) (x : String)
    (hx : x ∈ dedupeFirstAux seen l) : x ∉ seen := by
  induction l generalizing seen with
  | nil => simp [dedupeFirstAux] at hx
  | cons a rest ih =>
    simp only [dedupeFirstAux] at hx
    by_cases hc : seen.contains a
    · rw [if_pos hc] at hx
      exact ih seen hx
    · rw [if_neg hc] at hx
      rcases List.mem_cons.mp hx with rfl | hmem
      · intro hxs
        exact hc (List.elem_eq_true_of_mem hxs)
      · intro hxs
        exact ih (a :: seen) hmem (List.mem_cons_of_mem _ hxs)

theorem nodup_dedupeFirstAux (seen l : List String) :
    (dedupeFirstAux seen l).Nodup := by
  induction l generalizing seen with
  | nil => simp [dedupeFirstAux]
  | cons a rest ih =>
    simp only [dedupeFirstAux]
    by_cases hc : seen.contains a
    · rw [if_pos hc]
      exact ih seen
    · rw [if_neg hc]
      refine List.nodup_cons.mpr ⟨?_, ih (a :: seen)⟩
      intro hmem
      exact not_mem_seen_of_mem_dedupeFirstAux (a :: seen) rest a hmem
        (List.mem_cons_self a seen)

/-- C5: `extractRSIds` matches identifiers case-insensitively, uppercases its
output, removes duplicates (its output never contains a repeat), keeps
first-occurrence order, and yields an empty result on a text with zero
matches; on the input `"rs1 talks about RS1 and rs2"` it returns exactly
`["RS1", "RS2"]`. -/
theorem extractRSIds_spec (s : String) :
    extractRSIds "rs1 talks about RS1 and rs2" = ["RS1", "RS2"] ∧
    (extractRSIds s).Nodup ∧
    (rsMatches s = [] → extractRSIds s = []) := by
  refine ⟨by decide, nodup_dedupeFirstAux [] _, ?_⟩
  intro h
  simp [extractRSIds, h, dedupeFirst, dedupeFirstAux]

/-- Witness for `extractRSIds_spec` at a text with zero matches. -/
theorem extractRSIds_spec_witness :
    extractRSIds "rs1 talks about RS1 and rs2" = ["RS1", "RS2"] ∧
    (extractRSIds "plain text with no identifiers").Nodup ∧
    extractRSIds "plain text with no identifiers" = [] :=
  ⟨(extractRSIds_spec "plain text with no identifiers").1,
   (extractRSIds_spec "plain text with no identifiers").2.1,
   (extractRSIds_spec "plain text with no identifiers").2.2 (by decide)⟩

/-! ## Grand-summary row ordering -/

/-- C8 counterexample: two sections with equal homozygous percentage produce
adjacent grand-summary rows whose percentages are equal, so the row order is
not strictly descending as claimed. -/
theorem grandSummaryRowOrder_not_strictly_descending :
    ¬ List.Pairwise (fun a b => a.homozygousPercent > b.homozygousPercent)
      (grandSummaryRowOrder
        [⟨"Detox", 0, 0, 1, 0, 0, 1, 0, 0, 100, 0, 0⟩,
         ⟨"Methylation", 0, 0, 1, 0, 0, 1, 0, 0, 100, 0, 0⟩]) := by
  decide

/-- C8 as amended: the grand-summary rows are ordered by non-increasing
homozygous percentage — every earlier row's percentage is greater than or
equal to every later row's. -/
theorem grandSummaryRowOrder_sorted (summaries : List SectionSummary) :
    List.Pairwise (fun a b => b.homozygousPercent ≤ a.homozygousPercent)
      (grandSummaryRowOrder summaries) := by
  unfold grandSummaryRowOrder
  haveI : IsTotal SectionSummary
      (fun a b => b.homozygousPercent ≤ a.homozygousPercent) :=
    ⟨fun a b => le_total b.homozygousPercent a.homozygousPercent⟩
  haveI : IsTrans SectionSummary
      (fun a b => b.homozygousPercent ≤ a.homozygousPercent) :=
    ⟨fun _ _ _ hab hbc => le_trans hbc hab⟩
  exact List.sorted_insertionSort _ _
